import Mathlib

/-!
Shallow embedding of the typesafe-config repository (Go): the token scanner,
the recursive-descent parser with duplicate-key merge, the AST node set and
the path-addressed Config read API with lazy substitution resolution.

Modelling conventions, used throughout and noted again at each definition
where they matter:
* Go maps are modelled as insertion-ordered association lists with unique
  keys; map iteration order, unspecified in Go, is modelled as insertion
  order (the display order the spec postulates).
* Byte positions are modelled as character positions; no claim inspects a
  position numerically.
* float64 values are modelled as exact rationals; conversions between the
  integer types and float64 are modelled as exact, with the out-of-range
  float-to-integer conversions mapped to a fixed junk value, mirroring the
  amd64 behaviour closely enough that the equality tests in the number
  classifier behave as in the compiled program on in-range values.
* The environment lookup (os.LookupEnv in the Go code) is passed explicitly
  as a function argument, following the injected-capability reading of the
  spec.
-/

namespace TSConf

/-- Go strings.Split for a one-character separator, on character lists:
splitting the empty input yields one empty group, and a separator at
either end yields an empty group there. -/
def splitChars (sep : Char) : List Char → List (List Char)
  | [] => [[]]
  | c :: cs =>
    if c = sep then [] :: splitChars sep cs
    else
      match splitChars sep cs with
      | [] => [[c]]
      | g :: gs => (c :: g) :: gs

/-- Go strings.Split with a one-character separator on strings. -/
def splitString (sep : Char) (s : String) : List String :=
  (splitChars sep s.toList).map fun g => String.mk g

/-- Go strings.Index for the one-character needle. -/
def indexOfChar (sep : Char) : List Char → Option Nat
  | [] => none
  | c :: cs =>
    if c = sep then some 0
    else (indexOfChar sep cs).map (· + 1)

/-- The dotted rendering of a field path: identifiers joined by dots.
Modelled from the spec: the Field node stores a dotted path and its
String method reproduces that path, as consumed by the resolver when it
re-resolves the path against the tree and the environment lookup. -/
def dotted (ident : List String) : String :=
  String.intercalate "." ident

/-- NodeType mirrors the node-kind enumeration of node.go. -/
inductive NodeType where
  | text
  | field
  | list
  | map
  | nil
  | bool
  | number
  | string
  deriving Repr, DecidableEq

/-- Node is the closed tagged union of parse-tree nodes from node.go.
MapNode.Nodes (a Go map) is the insertion-ordered association list;
NumberNode keeps the four validity flags and the four representations,
with float64 as an exact rational and complex128 as a rational pair;
FieldNode is modelled from the spec (the node.go copy in the source tree
is a stale revision that lacks the Hard flag and the Fallback slot which
the parser and the resolver both use): it holds the dotted path segments,
the hard/soft flag and the optional fallback captured at parse time. -/
inductive Node where
  | map (pos : Nat) (nodes : List (String × Node))
  | list (pos : Nat) (nodes : List Node)
  | text (pos : Nat) (txt : String)
  | nil (pos : Nat)
  | field (pos : Nat) (ident : List String) (hard : Bool) (fallback : Option Node)
  | bool (pos : Nat) (val : Bool)
  | number (pos : Nat) (isInt isUint isFloat isComplex : Bool)
      (int64 : Int) (uint64 : Nat) (float64 : ℚ) (complexRe : ℚ) (complexIm : ℚ)
      (txt : String)
  | string (pos : Nat) (quoted : String) (txt : String)
  deriving Inhabited

/-- The Type method of each node variant. -/
def Node.typeOf : Node → NodeType
  | .map .. => .map
  | .list .. => .list
  | .text .. => .text
  | .nil .. => .nil
  | .field .. => .field
  | .bool .. => .bool
  | .number .. => .number
  | .string .. => .string

/-- Go map lookup on the association-list model. -/
def lookupEntry (key : String) : List (String × Node) → Option Node
  | [] => none
  | (k, v) :: rest => if k = key then some v else lookupEntry key rest

/-- Go map assignment on the association-list model: replace in place if
the key is present, append otherwise (insertion order preserved). -/
def putEntry (key : String) (val : Node) : List (String × Node) → List (String × Node)
  | [] => [(key, val)]
  | (k, v) :: rest =>
    if k = key then (k, val) :: rest else (k, v) :: putEntry key val rest

mutual

/-- String() of node.go, on the association-list map model: each map
entry renders as key, " = (", value, ")" in iteration order; a list
renders as the concatenation of its element renderings; nil and bool
render as their literal words; a number renders as its source text; a
string renders as its original quoted form; a field renders as its
dotted path (modelled from the spec, matching the path the resolver
re-resolves). -/
def Node.render : Node → String
  | .map _ ns => renderEntries ns
  | .list _ es => renderElems es
  | .text _ t => t
  | .nil _ => "nil"
  | .field _ ident _ _ => dotted ident
  | .bool _ b => if b then "true" else "false"
  | .number _ _ _ _ _ _ _ _ _ _ txt => txt
  | .string _ q _ => q

def renderEntries : List (String × Node) → String
  | [] => ""
  | (k, v) :: rest => k ++ " = (" ++ Node.render v ++ ")" ++ renderEntries rest

def renderElems : List Node → String
  | [] => ""
  | v :: rest => Node.render v ++ renderElems rest

end

mutual

/-- Copy() of node.go: a deep structural copy.  CopyMap rebuilds the map
entry by entry in iteration order, CopyList element by element; every
scalar variant rebuilds itself from its own components. -/
def Node.copy : Node → Node
  | .map p ns => .map p (copyEntries ns)
  | .list p es => .list p (copyElems es)
  | .text p t => .text p t
  | .nil p => .nil p
  | .field p ident h fb => .field p ident h fb
  | .bool p b => .bool p b
  | .number p i u f c i64 u64 f64 re im txt => .number p i u f c i64 u64 f64 re im txt
  | .string p q t => .string p q t

def copyEntries : List (String × Node) → List (String × Node)
  | [] => []
  | (k, v) :: rest => (k, Node.copy v) :: copyEntries rest

def copyElems : List Node → List Node
  | [] => []
  | v :: rest => Node.copy v :: copyElems rest

end

mutual

/-- withFallback of node.go.  On a Map receiver with a Map argument it
walks the old map: keys absent from the receiver are inserted with the
old value, keys present are replaced by the recursive merge of the new
value over the old one — so the new definition wins ties and the old
fields survive where the new map is silent.  A Field receiver records
the replaced value in its Fallback slot (modelled from the spec: the
stale node.go revision in the source tree predates the Fallback slot
that the resolver in config.go reads).  Every other receiver returns
itself unchanged, discarding the old value. -/
def Node.withFallback : Node → Node → Node
  | .map p ns, .map _ os => .map p (mergeOld ns os)
  | .field p ident h _, other => .field p ident h (some other)
  | n, _ => n

def mergeOld : List (String × Node) → List (String × Node) → List (String × Node)
  | ns, [] => ns
  | ns, (k, v) :: rest =>
    match lookupEntry k ns with
    | some w => mergeOld (putEntry k (Node.withFallback w v) ns) rest
    | none => mergeOld (ns ++ [(k, v)]) rest

end

/-! ## Scanner

The token scanner, from the lexer source file.  The channel-fed stream is
modelled as the list of items the state machine emits; the input is the
remaining character list plus the absolute character position.  The
substitution states are modelled from the spec and the lexer tests (the
lexer revision in the source tree predates the hard/soft substitution item
kinds that the parser consumes): a substitution body may hold letters,
digits, dot, dash or underscore and must close with a closing brace, a
soft substitution starts with a question mark, and the emitted item text
is the whole substitution form. -/

/-- The item kinds of the scanner. -/
inductive ItemType where
  | error
  | eof
  | space
  | comma
  | equals
  | colon
  | openCurly
  | closeCurly
  | openSquare
  | closeSquare
  | newLine
  | unquotedText
  | hardSubstitution
  | softSubstitution
  | comment
  | plusEquals
  | string
  | bool
  | number
  | complex
  | null
  deriving Repr, DecidableEq, Inhabited

/-- item: a token returned from the scanner, with kind, starting
character position and text. -/
structure Item where
  typ : ItemType
  pos : Nat
  val : String
  deriving Repr, DecidableEq, Inhabited

def isSpaceChar (c : Char) : Bool :=
  c = ' ' || c = '\t'

def isEndOfLine (c : Char) : Bool :=
  c = '\r' || c = '\n'

/-- isAlphaNumeric of the lexer: underscore, dash, letter or digit
(letters and digits restricted to ASCII in the model). -/
def isAlphaNumeric (c : Char) : Bool :=
  c = '_' || c = '-' || c.isAlpha || c.isDigit

def backquoteChar : Char := Char.ofNat 96

/-- lexer.accept: consume the next character when it belongs to the
valid set. Returns the consumed prefix and the rest. -/
def accept (valid : List Char) : List Char → List Char × List Char
  | [] => ([], [])
  | c :: rest => if c ∈ valid then ([c], rest) else ([], c :: rest)

/-- lexer.acceptRun: consume a run of characters from the valid set. -/
def acceptRun (valid : List Char) (cs : List Char) : List Char × List Char :=
  cs.span (· ∈ valid)

/-- lexQuote body scan, entered just after the opening double quote: a
backslash escapes the next character unless it is a newline or the end
of the input; an unescaped newline or the end of the input before the
closing quote is the unterminated case (none); the returned prefix
includes the closing quote. -/
def scanQuoteBody : List Char → Option (List Char × List Char)
  | [] => none
  | c :: rest =>
    if c = '\\' then
      match rest with
      | [] => none
      | d :: rest2 =>
        if d = '\n' then none
        else (scanQuoteBody rest2).map fun p => (c :: d :: p.1, p.2)
    else if c = '"' then some ([c], rest)
    else if c = '\n' then none
    else (scanQuoteBody rest).map fun p => (c :: p.1, p.2)

/-- lexRawQuote body scan, entered just after the opening backquote: no
escaping; a newline or the end of the input before the closing backquote
is the unterminated case. -/
def scanRawBody : List Char → Option (List Char × List Char)
  | [] => none
  | '\n' :: _ => none
  | c :: rest =>
    if c = backquoteChar then some ([c], rest)
    else (scanRawBody rest).map fun p => (c :: p.1, p.2)

/-- Substitution body scan, entered after the opening dollar-brace (and
question mark, when soft): letters, digits, dot, dash and underscore up
to the closing brace; anything else (the end of the input included) is
invalid. The returned prefix excludes the closing brace. -/
def scanSubstBody : List Char → Option (List Char × List Char)
  | [] => none
  | c :: rest =>
    if c = '\x7d' then some ([], rest)
    else if isAlphaNumeric c || c = '.' then
      (scanSubstBody rest).map fun p => (c :: p.1, p.2)
    else none

def decDigits : List Char := ['0', '1', '2', '3', '4', '5', '6', '7', '8', '9']

def hexDigits : List Char :=
  decDigits ++ ['a', 'b', 'c', 'd', 'e', 'f', 'A', 'B', 'C', 'D', 'E', 'F']

/-- lexer.scanNumber: optional sign, optional hex prefix selecting the
digit set, a digit run, an optional fraction, an optional exponent and
an optional trailing imaginary marker. It never rejects; malformed text
is left to the numeric converter. -/
def scanNumberChars (cs0 : List Char) : List Char × List Char :=
  let s1 := accept ['+', '-'] cs0
  let s2 := accept ['0'] s1.2
  let s3 := if s2.1 ≠ [] then accept ['x', 'X'] s2.2 else ([], s2.2)
  let digits := if s3.1 ≠ [] then hexDigits else decDigits
  let s4 := acceptRun digits s3.2
  let s5 := accept ['.'] s4.2
  let s6 := if s5.1 ≠ [] then acceptRun digits s5.2 else ([], s5.2)
  let s7 := accept ['e', 'E'] s6.2
  let s8 := if s7.1 ≠ [] then accept ['+', '-'] s7.2 else ([], s7.2)
  let s9 := if s7.1 ≠ [] then acceptRun decDigits s8.2 else ([], s8.2)
  let s10 := accept ['i'] s9.2
  (s1.1 ++ s2.1 ++ s3.1 ++ s4.1 ++ s5.1 ++ s6.1 ++ s7.1 ++ s8.1 ++ s9.1 ++ s10.1, s10.2)

/-- lexUnquotedText absorption set: letters, digits, underscore, dash
and dot. -/
def scanWord (cs : List Char) : List Char × List Char :=
  cs.span (fun c => isAlphaNumeric c || c = '.')

/-- Go %q on the error path of lexNumber, abbreviated to plain double
quoting (the escapes of %q are not reproduced; no claim inspects these
messages beyond their prefix). -/
def quoteGo (s : String) : String :=
  "\"" ++ s ++ "\""

/-- Index of the closing block-comment marker in the remaining input. -/
def findCloseComment : List Char → Option Nat
  | [] => none
  | '*' :: '/' :: _ => some 0
  | _ :: rest => (findCloseComment rest).map (· + 1)

/-- The scanner state machine: one item dispatch per step, fuel bounds
the number of steps (each step consumes at least one character, so the
input length plus one is always enough). A fatal condition emits one
terminal error item and the stream ends, mirroring the errorf contract. -/
def lexTokens : Nat → Nat → List Char → List Item
  | 0, pos, _ => [⟨.error, pos, "lexer fuel exhausted"⟩]
  | _ + 1, pos, [] => [⟨.eof, pos, ""⟩]
  | fuel + 1, pos, c :: cs =>
    if isEndOfLine c then
      ⟨.newLine, pos, String.mk [c]⟩ :: lexTokens fuel (pos + 1) cs
    else if isSpaceChar c then
      let p := (c :: cs).span isSpaceChar
      ⟨.space, pos, String.mk p.1⟩ :: lexTokens fuel (pos + p.1.length) p.2
    else if c = '/' then
      match cs with
      | '/' :: rest =>
        let p := rest.span (fun d => !isEndOfLine d)
        lexTokens fuel (pos + 2 + p.1.length) p.2
      | '*' :: rest =>
        match findCloseComment rest with
        | none => [⟨.error, pos, "unclosed comment"⟩]
        | some i => lexTokens fuel (pos + 2 + i + 2) (rest.drop (i + 2))
      | _ => [⟨.error, pos, "expected // or /*"⟩]
    else if c = '#' then
      let p := cs.span (fun d => !isEndOfLine d)
      lexTokens fuel (pos + 1 + p.1.length) p.2
    else if c = '"' then
      match scanQuoteBody cs with
      | none => [⟨.error, pos, "unterminated quoted string"⟩]
      | some p =>
        ⟨.string, pos, String.mk ('"' :: p.1)⟩ :: lexTokens fuel (pos + 1 + p.1.length) p.2
    else if c = backquoteChar then
      match scanRawBody cs with
      | none => [⟨.error, pos, "unterminated raw quoted string"⟩]
      | some p =>
        ⟨.string, pos, String.mk (c :: p.1)⟩ :: lexTokens fuel (pos + 1 + p.1.length) p.2
    else if c = ':' then ⟨.colon, pos, ":"⟩ :: lexTokens fuel (pos + 1) cs
    else if c = ',' then ⟨.comma, pos, ","⟩ :: lexTokens fuel (pos + 1) cs
    else if c = '=' then ⟨.equals, pos, "="⟩ :: lexTokens fuel (pos + 1) cs
    else if c = '\x7b' then ⟨.openCurly, pos, "\x7b"⟩ :: lexTokens fuel (pos + 1) cs
    else if c = '\x7d' then ⟨.closeCurly, pos, "\x7d"⟩ :: lexTokens fuel (pos + 1) cs
    else if c = '[' then ⟨.openSquare, pos, "["⟩ :: lexTokens fuel (pos + 1) cs
    else if c = ']' then ⟨.closeSquare, pos, "]"⟩ :: lexTokens fuel (pos + 1) cs
    else if c = '$' then
      match cs with
      | '\x7b' :: '?' :: rest =>
        match scanSubstBody rest with
        | none =>
          [⟨.error, pos,
            "variable substitution can only include letters, numbers, dot, dash or underscore."⟩]
        | some p =>
          ⟨.softSubstitution, pos, String.mk ('$' :: '\x7b' :: '?' :: p.1 ++ ['\x7d'])⟩ ::
            lexTokens fuel (pos + 4 + p.1.length) p.2
      | '\x7b' :: rest =>
        match scanSubstBody rest with
        | none =>
          [⟨.error, pos,
            "variable substitution can only include letters, numbers, dot, dash or underscore."⟩]
        | some p =>
          ⟨.hardSubstitution, pos, String.mk ('$' :: '\x7b' :: p.1 ++ ['\x7d'])⟩ ::
            lexTokens fuel (pos + 3 + p.1.length) p.2
      | [] => lexTokens fuel (pos + 1) []
      | _ :: rest => lexTokens fuel (pos + 2) rest
    else if c = '+' then
      match cs with
      | '=' :: rest => ⟨.plusEquals, pos, "+="⟩ :: lexTokens fuel (pos + 2) rest
      | _ => [⟨.error, pos, "expected +="⟩]
    else if c = '-' || c.isDigit then
      let p1 := scanNumberChars (c :: cs)
      match p1.2 with
      | s :: _ =>
        if s = '+' || s = '-' then
          let p2 := scanNumberChars p1.2
          let txt := p1.1 ++ p2.1
          if txt.getLast? = some 'i' then
            ⟨.complex, pos, String.mk txt⟩ :: lexTokens fuel (pos + txt.length) p2.2
          else [⟨.error, pos, "bad number syntax: " ++ quoteGo (String.mk txt)⟩]
        else ⟨.number, pos, String.mk p1.1⟩ :: lexTokens fuel (pos + p1.1.length) p1.2
      | [] => ⟨.number, pos, String.mk p1.1⟩ :: lexTokens fuel (pos + p1.1.length) p1.2
    else if isAlphaNumeric c then
      let p := scanWord (c :: cs)
      let w := String.mk p.1
      let typ : ItemType :=
        if w = "true" || w = "false" || w = "on" || w = "off" then .bool
        else if w = "nil" then .null
        else .unquotedText
      ⟨typ, pos, w⟩ :: lexTokens fuel (pos + p.1.length) p.2
    else [⟨.error, pos, "unrecognized character in action: " ++ String.mk [c]⟩]

/-- Run the scanner over a whole input string. -/
def lexAll (s : String) : List Item :=
  lexTokens (s.length + 1) 0 s.toList

/-! ## Numeric conversion

Models of the strconv routines used by the number converter, and the
converter itself (newNumber and simplifyComplex from node.go).  float64
is modelled as an exact rational; the deviations are noted on each
definition. -/

def lowerChar (c : Char) : Char :=
  if 'A' ≤ c ∧ c ≤ 'Z' then Char.ofNat (c.toNat + 32) else c

def digitVal (c : Char) : Option Nat :=
  if '0' ≤ c ∧ c ≤ '9' then some (c.toNat - '0'.toNat)
  else if 'a' ≤ c ∧ c ≤ 'z' then some (c.toNat - 'a'.toNat + 10)
  else if 'A' ≤ c ∧ c ≤ 'Z' then some (c.toNat - 'A'.toNat + 10)
  else none

/-- strconv underscoreOK state machine: an underscore must sit between
successive digits (a base prefix counting as a digit).  The first
argument is the last-seen class, encoded as in the Go source: caret for
the beginning, zero for a digit, underscore, or bang for anything else. -/
def underscoreOKAux : Char → Bool → List Char → Bool
  | saw, _, [] => saw ≠ '_'
  | saw, hex, c :: rest =>
    if ('0' ≤ c ∧ c ≤ '9') ∨ (hex ∧ 'a' ≤ lowerChar c ∧ lowerChar c ≤ 'f') then
      underscoreOKAux '0' hex rest
    else if c = '_' then
      if saw ≠ '0' then false else underscoreOKAux '_' hex rest
    else if saw = '_' then false
    else underscoreOKAux '!' hex rest

def underscoreOK (cs0 : List Char) : Bool :=
  let cs1 :=
    match cs0 with
    | c :: rest => if c = '-' ∨ c = '+' then rest else cs0
    | [] => []
  match cs1 with
  | '0' :: b :: rest =>
    if lowerChar b = 'b' ∨ lowerChar b = 'o' ∨ lowerChar b = 'x' then
      underscoreOKAux '0' (lowerChar b = 'x') rest
    else underscoreOKAux '^' false cs1
  | _ => underscoreOKAux '^' false cs1

/-- The digit-accumulation loop of strconv.ParseUint for 64 bits: an
underscore is skipped (legality was checked up front), a digit beyond
the base or an overflow past 2^64 - 1 fails (the Go range error is an
error to every caller in this code base, so it is modelled as failure). -/
def parseUintDigits (base : Nat) : List Char → Nat → Option Nat
  | [], n => some n
  | c :: rest, n =>
    if c = '_' then parseUintDigits base rest n
    else
      match digitVal c with
      | none => none
      | some d =>
        if base ≤ d then none
        else
          let n2 := n * base + d
          if 2 ^ 64 ≤ n2 then none else parseUintDigits base rest n2

/-- strconv.ParseUint with base 0 and 64 bits: no sign, a 0b/0o/0x
prefix selects the base, a bare leading zero means octal, underscores
as allowed by underscoreOK. -/
def parseUintGo (s : String) : Option Nat :=
  match s.toList with
  | [] => none
  | cs =>
    if cs.contains '_' ∧ ¬ underscoreOK cs then none
    else
      let p : Nat × List Char :=
        match cs with
        | '0' :: b :: rest =>
          if rest ≠ [] ∧ lowerChar b = 'b' then (2, rest)
          else if rest ≠ [] ∧ lowerChar b = 'o' then (8, rest)
          else if rest ≠ [] ∧ lowerChar b = 'x' then (16, rest)
          else (8, b :: rest)
        | _ => (10, cs)
      parseUintDigits p.1 p.2 0

/-- strconv.ParseInt with base 0 and 64 bits: optional sign, then the
unsigned parse, then the signed range check. -/
def parseIntGo (s : String) : Option Int :=
  match s.toList with
  | [] => none
  | c :: rest =>
    let sp : Bool × List Char :=
      if c = '+' then (false, rest)
      else if c = '-' then (true, rest)
      else (false, c :: rest)
    match parseUintGo (String.mk sp.2) with
    | none => none
    | some un =>
      if ¬ sp.1 ∧ 2 ^ 63 ≤ un then none
      else if sp.1 ∧ 2 ^ 63 < un then none
      else some (if sp.1 then -(un : Int) else (un : Int))

def isHexDigitChar (c : Char) : Bool :=
  c ∈ hexDigits

def digitsToNat (base : Nat) (ds : List Char) : Nat :=
  ds.foldl (fun n c => n * base + ((digitVal c).getD 0)) 0

/-- Decimal mantissa-and-exponent part of the ParseFloat model: digits,
an optional fraction, an optional decimal exponent; at least one
mantissa digit; nothing may follow. Returns the mantissa as a natural
number, the number of fraction digits and the signed exponent. -/
def parseDecMantissa (cs : List Char) : Option (Nat × Nat × Int) :=
  let ip := cs.span Char.isDigit
  let fp :=
    match ip.2 with
    | '.' :: rest => ((rest.span Char.isDigit).1, (rest.span Char.isDigit).2)
    | _ => ([], ip.2)
  if ip.1 = [] ∧ fp.1 = [] then none
  else
    match fp.2 with
    | [] => some (digitsToNat 10 (ip.1 ++ fp.1), fp.1.length, 0)
    | e :: rest =>
      if e = 'e' ∨ e = 'E' then
        let sp : Bool × List Char :=
          match rest with
          | '+' :: r => (false, r)
          | '-' :: r => (true, r)
          | r => (false, r)
        let ep := sp.2.span Char.isDigit
        if ep.1 = [] ∨ ep.2 ≠ [] then none
        else
          let en : Int := digitsToNat 10 ep.1
          some (digitsToNat 10 (ip.1 ++ fp.1), fp.1.length, if sp.1 then -en else en)
      else none

/-- Hexadecimal mantissa of the ParseFloat model: hex digits with an
optional hex fraction, then a mandatory binary exponent p with decimal
digits; nothing may follow. -/
def parseHexMantissa (cs : List Char) : Option (Nat × Nat × Int) :=
  let ip := cs.span isHexDigitChar
  let fp :=
    match ip.2 with
    | '.' :: rest => ((rest.span isHexDigitChar).1, (rest.span isHexDigitChar).2)
    | _ => ([], ip.2)
  if ip.1 = [] ∧ fp.1 = [] then none
  else
    match fp.2 with
    | p :: rest =>
      if p = 'p' ∨ p = 'P' then
        let sp : Bool × List Char :=
          match rest with
          | '+' :: r => (false, r)
          | '-' :: r => (true, r)
          | r => (false, r)
        let ep := sp.2.span Char.isDigit
        if ep.1 = [] ∨ ep.2 ≠ [] then none
        else
          let en : Int := digitsToNat 10 ep.1
          some (digitsToNat 16 (ip.1 ++ fp.1), fp.1.length, if sp.1 then -en else en)
      else none
    | [] => none

/-- strconv.ParseFloat for 64 bits, modelled over exact rationals built
with the core rational constructor (keeping every evaluation a fast
kernel computation).  Deviations, each harmless to the claims: the
non-finite spellings (inf, infinity, nan) are rejected rather than
producing non-finite values; underscores are rejected; the value is
kept exact instead of rounded to the nearest binary64; overflow is
modelled as magnitude at least 2^1024 and underflow as a nonzero
magnitude at most 2^(-1075), with exponents beyond 2000 in magnitude
classified directly (faithful to Go, which reports a range error in
those regions, and keeping evaluation cheap). -/
def parseFloatGo (s : String) : Option ℚ :=
  let cs := s.toList
  if cs.contains '_' then none
  else
    match cs with
    | [] => none
    | c0 :: rest0 =>
      let sp : Bool × List Char :=
        if c0 = '+' then (false, rest0)
        else if c0 = '-' then (true, rest0)
        else (false, c0 :: rest0)
      let low := sp.2.map lowerChar
      if low = "inf".toList ∨ low = "infinity".toList ∨ low = "nan".toList then none
      else
        let parsed : Option ((Nat × Nat × Int) × Nat) :=
          match sp.2 with
          | '0' :: x :: rest =>
            if lowerChar x = 'x' then (parseHexMantissa rest).map (fun m => (m, 2))
            else (parseDecMantissa sp.2).map (fun m => (m, 10))
          | _ => (parseDecMantissa sp.2).map (fun m => (m, 10))
        match parsed with
        | none => none
        | some ((mant, fracLen, exp), expBase) =>
          if mant = 0 then some 0
          else if 2000 < exp then none
          else if exp < -2000 then none
          else
            let radix : Nat := if expBase = 2 then 16 else 10
            let q0 : ℚ :=
              match exp with
              | .ofNat e => mkRat ((mant * expBase ^ e : Nat) : Int) (radix ^ fracLen)
              | .negSucc e => mkRat (mant : Int) (radix ^ fracLen * expBase ^ (e + 1))
            let q : ℚ := if sp.1 then -q0 else q0
            if 2 ^ 1024 * q.den ≤ q.num.natAbs then none
            else if q.num.natAbs * 2 ^ 1075 ≤ q.den then none
            else some q

/-- Go float64-to-int64 conversion: truncation toward zero; out of
range is not specified by Go, modelled as the minimum int64, matching
the amd64 lowering. -/
def truncQ (q : ℚ) : Int :=
  Int.tdiv q.num (q.den : Int)

def int64conv (q : ℚ) : Int :=
  if -(2 ^ 63) ≤ truncQ q ∧ truncQ q < 2 ^ 63 then truncQ q else -(2 ^ 63)

/-- Go float64-to-uint64 conversion: truncation toward zero; out of
range modelled as 2^63, matching the amd64 lowering closely enough that
the round-trip equality tests below fail on every out-of-range value. -/
def uint64conv (q : ℚ) : Nat :=
  if 0 ≤ truncQ q ∧ truncQ q < 2 ^ 64 then (truncQ q).toNat else 2 ^ 63

/-- fmt.Sscan into a complex128, modelled for the token shape the
scanner produces: a float literal, a sign, a second float literal and a
trailing imaginary marker. -/
def parseComplexGo (s : String) : Option (ℚ × ℚ) :=
  let cs := s.toList
  match splitComplexAux cs [] with
  | none => none
  | some (rePart, imPart) =>
    match parseFloatGo (String.mk rePart), imPart.getLast? with
    | some re, some 'i' =>
      match parseFloatGo (String.mk (imPart.dropLast)) with
      | some im => some (re, im)
      | none => none
    | _, _ => none
where
  /-- Split at the first sign that neither starts the literal nor
  follows an exponent marker. -/
  splitComplexAux : List Char → List Char → Option (List Char × List Char)
    | [], _ => none
    | c :: rest, acc =>
      if (c = '+' ∨ c = '-') ∧ acc ≠ [] ∧ acc.getLast? ≠ some 'e' ∧ acc.getLast? ≠ some 'E' then
        some (acc.reverse, c :: rest)
      else splitComplexAux rest (c :: acc)

/-- simplifyComplex of node.go: with a zero imaginary part the float
validity and value are taken from the real part, and the integer and
unsigned validities from the float-to-integer round-trip tests. -/
def simplifyComplex (pos : Nat) (re im : ℚ) (txt : String) : Node :=
  let isFloat := im = 0
  if isFloat then
    let isInt := ((int64conv re : Int) : ℚ) = re
    let isUint := ((uint64conv re : Nat) : ℚ) = re
    .number pos isInt isUint true true
      (if isInt then int64conv re else 0)
      (if isUint then uint64conv re else 0)
      re re im txt
  else
    .number pos false false false true 0 0 0 re im txt

/-- newNumber of node.go: the complex item kind goes through the Sscan
model and simplifyComplex; a trailing imaginary marker with a parsable
prefix becomes a pure imaginary complex; otherwise the unsigned parse,
the signed parse (with the minus-zero fix-up reading the zero value of
the failed unsigned parse), the float promotion of an integer value, and
finally the float parse with the integer round-trip extraction.  With no
valid representation the conversion fails (illegal number syntax). -/
def newNumber (pos : Nat) (txt : String) (typ : ItemType) : Option Node :=
  if typ = .complex then
    match parseComplexGo txt with
    | none => none
    | some p => some (simplifyComplex pos p.1 p.2 txt)
  else
    match imagParse txt with
    | some f => some (simplifyComplex pos 0 f txt)
    | none =>
      let u? := parseUintGo txt
      let i? := parseIntGo txt
      let isUint0 := u?.isSome
      let uint0 := u?.getD 0
      let isInt := i?.isSome
      let int0 := i?.getD 0
      let isUint := isUint0 ∨ (isInt ∧ int0 = 0)
      if isInt then
        some (.number pos true isUint true false int0 uint0 ((int0 : Int) : ℚ) 0 0 txt)
      else if isUint0 then
        some (.number pos false true true false 0 uint0 ((uint0 : Nat) : ℚ) 0 0 txt)
      else
        match parseFloatGo txt with
        | some f =>
          let fInt := ((int64conv f : Int) : ℚ) = f
          let fUint := ((uint64conv f : Nat) : ℚ) = f
          some (.number pos fInt fUint true false
            (if fInt then int64conv f else 0)
            (if fUint then uint64conv f else 0) f 0 0 txt)
        | none => none
where
  /-- The trailing-i branch: only taken when the prefix before the
  marker parses as a float. -/
  imagParse (t : String) : Option ℚ :=
    match t.toList.getLast? with
    | some 'i' => parseFloatGo (String.mk t.toList.dropLast)
    | _ => none

/-! ## Parser

The recursive-descent parser of parse.go.  The channel-fed token stream
with up to three tokens of pushback is modelled as a pushback list in
front of the remaining scanner output; the lexer lastPos used for error
line numbers is updated exactly when an item is taken from the scanner
output, as nextItem does.  Parser failure (errorf panics recovered at
the top) is the error case of Except; errorf nils the root, so a failed
parse carries no tree. -/

structure PState where
  parseName : String
  text : List Char
  pending : List Item
  rest : List Item
  lastPos : Nat
  deriving Repr, Inhabited

/-- Tree.next: pushback first, else the next scanner item (updating
lastPos as lexer.nextItem does). On a fully exhausted stream the Go
program would block on the channel; the model returns an end-of-file
item (unreachable: every scanner stream ends in an eof or error item,
and the parser stops at either). -/
def pnext (st : PState) : Item × PState :=
  match st.pending with
  | t :: ps => (t, { st with pending := ps })
  | [] =>
    match st.rest with
    | t :: rs => (t, { st with rest := rs, lastPos := t.pos })
    | [] => (⟨.eof, st.lastPos, ""⟩, st)

/-- Tree.backup. -/
def pbackup (t : Item) (st : PState) : PState :=
  { st with pending := t :: st.pending }

/-- lexer.lineNumber: one plus the newlines before lastPos. -/
def plineNumber (st : PState) : Nat :=
  1 + (st.text.take st.lastPos).countP (fun c => c = '\n')

/-- Tree.errorf: the error format with the parse name and the line. -/
def perrorMsg (st : PState) (msg : String) : String :=
  "template: " ++ st.parseName ++ ":" ++ toString (plineNumber st) ++ ": " ++ msg

/-- item.String: EOF and error items print specially, long values are
truncated to ten characters with an ellipsis, the rest print quoted
(the %q escapes abbreviated to plain quoting). -/
def Item.str (i : Item) : String :=
  if i.typ = .eof then "EOF"
  else if i.typ = .error then i.val
  else if 10 < i.val.length then quoteGo (String.mk (i.val.toList.take 10)) ++ "..."
  else quoteGo i.val

/-- Tree.unexpected via errorf. -/
def punexpected (st : PState) (tok : Item) (context : String) : Except String α :=
  .error (perrorMsg st ("unexpected " ++ tok.str ++ " in " ++ context))

/-- Tree.expected via errorf. -/
def pexpected (st : PState) (tok : Item) (expectTok : String) : Except String α :=
  .error (perrorMsg st ("expected " ++ expectTok ++ " but token " ++ tok.str ++ " shows up"))

/-- The skipping next-token readers.  The flag selects
nextNonSpaceIgnoreNewline (true) against nextNonSpace (false). -/
def pnextNSAux (skipNL : Bool) : Nat → PState → Item × PState
  | 0, st => pnext st
  | n + 1, st =>
    let p := pnext st
    if p.1.typ = .space ∨ (skipNL ∧ p.1.typ = .newLine) then pnextNSAux skipNL n p.2
    else p

def pnextNS (skipNL : Bool) (st : PState) : Item × PState :=
  pnextNSAux skipNL (st.pending.length + st.rest.length + 1) st

/-- Tree.peekNonSpace: its loop condition holds for every token, so it
peeks the raw next token (spaces included), reading it and backing it
up. -/
def ppeekNonSpace (st : PState) : Item × PState :=
  let p := pnext st
  (p.1, pbackup p.1 p.2)

/-- isValue of parse.go: bool, null, number or string items. -/
def isValueTok (t : Item) : Bool :=
  t.typ = .bool ∨ t.typ = .null ∨ t.typ = .number ∨ t.typ = .string

/-- isKeyValueSeparatorToken: colon, equals or plus-equals. -/
def isKeyValueSeparatorTok (t : Item) : Bool :=
  t.typ = .colon ∨ t.typ = .equals ∨ t.typ = .plusEquals

/-- checkElementSeparator: consume newlines, report a comma at once;
any other token is pushed back and newline-seen is reported. -/
def checkElementSeparatorAux : Nat → Bool → PState → Bool × PState
  | 0, saw, st => (saw, st)
  | n + 1, saw, st =>
    let p := pnext st
    if p.1.typ = .newLine then checkElementSeparatorAux n true p.2
    else if p.1.typ = .comma then (true, p.2)
    else (saw, pbackup p.1 p.2)

def checkElementSeparator (st : PState) : Bool × PState :=
  checkElementSeparatorAux (st.pending.length + st.rest.length + 1) false st

/-- consolidate: a single token stands; several adjacent literal tokens
join into one space-separated string item at the first position. -/
def consolidate (ts : List Item) : Item :=
  match ts with
  | [t] => t
  | t :: rest => ⟨.string, t.pos, rest.foldl (fun acc u => acc ++ " " ++ u.val) t.val⟩
  | [] => ⟨.error, 0, ""⟩

/-- consolidateValueTokens: gather a run of literal tokens (the first
read skips newlines, later reads only spaces); with none, push the
breaking token back; otherwise push back the breaking token and then
the consolidated token, as backup2 does. -/
def consolidateValueTokensAux : Nat → List Item → PState → List Item × Item × PState
  | 0, acc, st => (acc.reverse, ⟨.error, 0, ""⟩, st)
  | n + 1, acc, st =>
    let p := pnextNS false st
    if isValueTok p.1 ∨ p.1.typ = .unquotedText then consolidateValueTokensAux n (p.1 :: acc) p.2
    else (acc.reverse, p.1, p.2)

def consolidateValueTokens (st : PState) : PState :=
  let p0 := pnextNS true st
  if isValueTok p0.1 ∨ p0.1.typ = .unquotedText then
    let r := consolidateValueTokensAux (p0.2.pending.length + p0.2.rest.length + 1) [p0.1] p0.2
    pbackup (consolidate r.1) (pbackup r.2.1 r.2.2)
  else pbackup p0.1 p0.2

/-- The regular expression of unquoteString: text wrapped in double
quotes whose inside spans no newline loses the quotes, anything else is
returned unchanged. -/
def unquoteString (value : String) : String :=
  let cs := value.toList
  if 2 ≤ cs.length ∧ cs.head? = some '"' ∧ cs.getLast? = some '"'
      ∧ ¬ (cs.drop 1).dropLast.contains '\n' then
    String.mk ((cs.drop 1).dropLast)
  else value

/-- strconv.ParseBool. -/
def parseBoolGo (s : String) : Option Bool :=
  if s = "1" ∨ s = "t" ∨ s = "T" ∨ s = "TRUE" ∨ s = "true" ∨ s = "True" then some true
  else if s = "0" ∨ s = "f" ∨ s = "F" ∨ s = "FALSE" ∨ s = "false" ∨ s = "False" then some false
  else none

/-- Position() of each node variant. -/
def Node.posOf : Node → Nat
  | .map p _ => p
  | .list p _ => p
  | .text p _ => p
  | .nil p => p
  | .field p _ _ _ => p
  | .bool p _ => p
  | .number p _ _ _ _ _ _ _ _ _ _ => p
  | .string p _ _ => p

/-- createValueUnderPath: wrap the value in one map per remaining path
segment, innermost first, each map at the position of the value. -/
def createValueUnderPath (remaining : String) (newValue : Node) : Node :=
  (splitString '.' remaining).foldr
    (fun key prev => Node.map newValue.posOf [(key, prev)]) newValue

mutual

/-- parseValue of parse.go: substitutions become Field nodes carrying
the path between the braces and the hard/soft flag; booleans go through
ParseBool with the on/off fix-up; null, number, quoted string and
unquoted text become their nodes; an open brace or bracket recurses;
anything else is an unexpected-token failure. -/
def parseValue : Nat → Item → PState → Except String (Node × PState)
  | 0, _, _ => .error "parser fuel exhausted"
  | fuel + 1, tok, st =>
    match tok.typ with
    | .hardSubstitution =>
      let key := String.mk ((tok.val.toList.drop 2).dropLast)
      .ok (.field tok.pos (splitString '.' key) true none, st)
    | .softSubstitution =>
      let key := String.mk ((tok.val.toList.drop 3).dropLast)
      .ok (.field tok.pos (splitString '.' key) false none, st)
    | .bool =>
      match parseBoolGo tok.val with
      | some b => .ok (.bool tok.pos b, st)
      | none =>
        if tok.val = "on" then .ok (.bool tok.pos true, st)
        else if tok.val = "off" then .ok (.bool tok.pos false, st)
        else .error ("strconv.ParseBool: parsing " ++ quoteGo tok.val ++ ": invalid syntax")
    | .null => .ok (.nil tok.pos, st)
    | .number =>
      match newNumber tok.pos tok.val .number with
      | some n => .ok (n, st)
      | none => .error ("illegal number syntax: " ++ quoteGo tok.val)
    | .string => .ok (.string tok.pos tok.val (unquoteString tok.val), st)
    | .unquotedText => .ok (.string tok.pos tok.val tok.val, st)
    | .openCurly => parseObject fuel true st
    | .openSquare => parseArray fuel st
    | _ => punexpected st tok "parse value"

/-- parseObject of parse.go, entered just after the open brace (or at
the start of the document). -/
def parseObject : Nat → Bool → PState → Except String (Node × PState)
  | 0, _, _ => .error "parser fuel exhausted"
  | fuel + 1, hadOpenCurly, st =>
    let pk := ppeekNonSpace st
    parseObjectLoop fuel hadOpenCurly pk.1.pos [] pk.2

/-- The entry loop of parseObject: read a key, the separator or an open
brace, consolidate adjacent literal tokens, parse the value, desugar a
dotted key innermost-first, and merge with any existing entry through
withFallback; then require an element separator, a close brace or the
end of input as appropriate. -/
def parseObjectLoop : Nat → Bool → Nat → List (String × Node) → PState →
    Except String (Node × PState)
  | 0, _, _, _, _ => .error "parser fuel exhausted"
  | fuel + 1, hadOpenCurly, mpos, acc, st =>
    let p := pnextNS true st
    let token := p.1
    let st := p.2
    if token.typ = .closeCurly then
      if ¬ hadOpenCurly then punexpected st token "\x7d"
      else .ok (.map mpos acc, st)
    else if token.typ = .eof ∧ ¬ hadOpenCurly then
      .ok (.map mpos acc, pbackup token st)
    else
      let pkey := token.val
      let pa := pnextNS true st
      let afterKey := pa.1
      let st := pa.2
      let vt : Except String (Item × PState) :=
        if afterKey.typ = .openCurly then .ok (afterKey, st)
        else if ¬ isKeyValueSeparatorTok afterKey then punexpected st afterKey "= object"
        else
          let st := consolidateValueTokens st
          .ok (pnextNS true st)
      match vt with
      | .error e => .error e
      | .ok (valueToken, st) =>
        match parseValue fuel valueToken st with
        | .error e => .error e
        | .ok (newValue, st) =>
          let acc :=
            match indexOfChar '.' pkey.toList with
            | none =>
              match lookupEntry pkey acc with
              | some existing => putEntry pkey (newValue.withFallback existing) acc
              | none => putEntry pkey newValue acc
            | some sepIndex =>
              let key := String.mk (pkey.toList.take sepIndex)
              let remaining := String.mk (pkey.toList.drop (sepIndex + 1))
              let obj := createValueUnderPath remaining newValue
              match lookupEntry key acc with
              | some existing => putEntry key (obj.withFallback existing) acc
              | none => putEntry key obj acc
          let ps := checkElementSeparator st
          if ps.1 then parseObjectLoop fuel hadOpenCurly mpos acc ps.2
          else
            let pn := pnextNS true ps.2
            let nextToken := pn.1
            let st := pn.2
            if nextToken.typ = .closeCurly then
              if ¬ hadOpenCurly then punexpected st nextToken "unbalanced close brace"
              else .ok (.map mpos acc, st)
            else if hadOpenCurly then pexpected st nextToken "\x7d"
            else if nextToken.typ = .eof then
              parseObjectLoop fuel hadOpenCurly mpos acc (pbackup nextToken st)
            else pexpected st nextToken "EOF"

/-- parseArray of parse.go, entered just after the open bracket. -/
def parseArray : Nat → PState → Except String (Node × PState)
  | 0, _ => .error "parser fuel exhausted"
  | fuel + 1, st =>
    let pk := ppeekNonSpace st
    let lpos := pk.1.pos
    let p := pnextNS true pk.2
    let token := p.1
    let st := p.2
    if token.typ = .closeSquare then .ok (.list lpos [], st)
    else if isValueTok token ∨ token.typ = .openCurly ∨ token.typ = .openSquare
        ∨ token.typ = .softSubstitution ∨ token.typ = .hardSubstitution then
      match parseValue fuel token st with
      | .error e => .error e
      | .ok (v, st) => parseArrayLoop fuel lpos [v] st
    else punexpected st token "ListNode"

/-- The element loop of parseArray, faithful to its control flow: with
no separator a close bracket ends the list (any other token there is
read and dropped); a peeked non-brace token triggers consolidation; a
value is appended, a close bracket is pushed back to honor one trailing
separator, anything else fails. -/
def parseArrayLoop : Nat → Nat → List Node → PState → Except String (Node × PState)
  | 0, _, _, _ => .error "parser fuel exhausted"
  | fuel + 1, lpos, acc, st =>
    let ps := checkElementSeparator st
    let sepSt : Option PState :=
      if ps.1 then some ps.2
      else
        let p := pnextNS true ps.2
        if p.1.typ = .closeSquare then none else some p.2
    match sepSt with
    | none =>
      let p := pnextNS true ps.2
      .ok (.list lpos acc.reverse, p.2)
    | some st =>
      let pk := ppeekNonSpace st
      let st :=
        if pk.1.typ ≠ .openCurly ∧ pk.1.typ ≠ .openSquare then consolidateValueTokens pk.2
        else pk.2
      let p := pnextNS true st
      let token := p.1
      let st := p.2
      if isValueTok token ∨ token.typ = .openCurly ∨ token.typ = .openSquare then
        match parseValue fuel token st with
        | .error e => .error e
        | .ok (v, st) => parseArrayLoop fuel lpos (v :: acc) st
      else if token.typ = .closeSquare then
        parseArrayLoop fuel lpos acc (pbackup token st)
      else punexpected st token "ListNode"

end

/-- Tree.parse: an open brace or bracket parses as a value, anything
else as the top-level object body; then the end of input is required. -/
def parseTop (fuel : Nat) (st : PState) : Except String (Node × PState) :=
  let p := pnextNS true st
  let res : Except String (Node × PState) :=
    if p.1.typ = .openCurly ∨ p.1.typ = .openSquare then parseValue fuel p.1 p.2
    else parseObject fuel false (pbackup p.1 p.2)
  match res with
  | .error e => .error e
  | .ok (root, st) =>
    let pe := pnextNS true st
    if pe.1.typ = .eof then .ok (root, pe.2)
    else punexpected pe.2 pe.1 "EOF"

/-- Parse of parse.go with an explicit template name: scan, parse, and
either the root node or the error (after which Root is nil). -/
def parseDocNamed (name text : String) : Except String Node :=
  let items := lexAll text
  let st : PState := ⟨name, text.toList, [], items, 0⟩
  (parseTop (2 * items.length + 16) st).map (·.1)

/-- parse.Parse as used by ParseBytes: the name is "config". -/
def parseDoc (text : String) : Except String Node :=
  parseDocNamed "config" text

/-- Tree.Root after a parse: the root node on success, absent after a
failure (errorf clears it before unwinding). -/
def rootAfterParse (text : String) : Option Node :=
  (parseDoc text).toOption

/-! ## Resolver (Config accessor)

Config.GetValue and the typed getters of config.go.  A Config is a thin
read-only cursor on a node; the model passes the cursor root explicitly.
The environment lookup (os.LookupEnv) is an explicit function argument.
Substitution resolution can recurse through the whole tree on the inner
GetValue call and can chase fallback chains, and the source has no cycle
guard, so both carry fuel; exhausting it is a distinct error that no
claim identifies with any source error. -/

mutual

/-- The segment walk of Config.GetValue: a Map is indexed (a missing
key fails with the path-not-valid error, a found child first runs the
field-resolution loop); a non-Map current node falls through the loop
body without indexing, so the segment is skipped.  One unit of fuel is
consumed per segment and per resolution step, keeping the recursion
structural; fuel exhaustion is an error no source error shares. -/
def walkPath (env : String → Option String) (root : Node) :
    Nat → List String → Node → Except String Node
  | _, [], v => .ok v
  | 0, _ :: _, _ => .error "resolution fuel exhausted"
  | fuel + 1, key :: rest, v =>
    match v with
    | .map _ ns =>
      match lookupEntry key ns with
      | none => .error ("path not valid: " ++ key)
      | some n =>
        match resolveLoop env root fuel n key with
        | .error e => .error e
        | .ok n2 => walkPath env root fuel rest n2
    | _ => walkPath env root fuel rest v

/-- The field-resolution loop of Config.GetValue (also the loop of
GetArray, which differs only in the text it reports): while the node is
a Field, resolve its dotted path against the cursor root; failing that,
consult the environment lookup (a hit becomes a String node with the
auto-unquoted text); failing that, a hard field becomes Nil, a soft
field with a fallback becomes its fallback, and a soft field without
one fails with the invalid-field-node error naming errKey. -/
def resolveLoop (env : String → Option String) (root : Node) :
    Nat → Node → String → Except String Node
  | 0, .field _ _ _ _, _ => .error "resolution fuel exhausted"
  | fuel + 1, .field _ ident hard fb, errKey =>
    let pathStr := dotted ident
    match walkPath env root fuel (splitString '.' pathStr) root with
    | .ok r => resolveLoop env root fuel r errKey
    | .error _ =>
      match env pathStr with
      | some envV => resolveLoop env root fuel (.string 0 envV (unquoteString envV)) errKey
      | none =>
        if hard then resolveLoop env root fuel (.nil 0) errKey
        else
          match fb with
          | some f => resolveLoop env root fuel f errKey
          | none => .error ("invalid field node: " ++ errKey)
  | _, n, _ => .ok n

end

/-- Config.GetValue: split the path on dots (an empty split result
would report the empty-path error), then walk one segment at a time
from the cursor root. -/
def getValue (env : String → Option String) (fuel : Nat) (c : Node) (path : String) :
    Except String Node :=
  let ps := splitString '.' path
  if ps.length = 0 then .error "empty path"
  else walkPath env c fuel ps c

/-- Config.GetString: only a String node answers, with its unquoted
text (the nil-root branch of the source is unreachable here because the
model carries a node, never a nil interface). -/
def getString (env : String → Option String) (fuel : Nat) (c : Node) (path : String) :
    Except String String :=
  match getValue env fuel c path with
  | .error e => .error e
  | .ok root =>
    match root with
    | .string _ _ t => .ok t
    | _ => .error ("not valid string: " ++ path)

/-- Config.GetBool: a Bool node answers directly; a String node is the
textual fallback through strconv.ParseBool; anything else fails. -/
def getBool (env : String → Option String) (fuel : Nat) (c : Node) (path : String) :
    Except String Bool :=
  match getValue env fuel c path with
  | .error e => .error e
  | .ok root =>
    match root with
    | .bool _ b => .ok b
    | .string _ _ t =>
      match parseBoolGo t with
      | some b => .ok b
      | none => .error ("strconv.ParseBool: parsing " ++ quoteGo t ++ ": invalid syntax")
    | _ => .error ("not valid bool: " ++ path)

/-- Config.GetInt: a Number node answers when its int64 validity is
set; a String node is the textual fallback through strconv.ParseInt;
anything else fails. -/
def getInt (env : String → Option String) (fuel : Nat) (c : Node) (path : String) :
    Except String Int :=
  match getValue env fuel c path with
  | .error e => .error e
  | .ok root =>
    match root with
    | .number _ isInt _ _ _ i64 _ _ _ _ txt =>
      if isInt then .ok i64 else .error ("not valid int64: " ++ txt)
    | .string _ _ t =>
      match parseIntGo t with
      | some v => .ok v
      | none => .error ("strconv.ParseInt: parsing " ++ quoteGo t ++ ": invalid syntax")
    | _ => .error ("not valid int64: " ++ path)

/-- Config.GetUInt: a Number node answers when its uint64 validity is
set; a String node is the textual fallback through strconv.ParseUint;
anything else fails. -/
def getUInt (env : String → Option String) (fuel : Nat) (c : Node) (path : String) :
    Except String Nat :=
  match getValue env fuel c path with
  | .error e => .error e
  | .ok root =>
    match root with
    | .number _ _ isUint _ _ _ u64 _ _ _ txt =>
      if isUint then .ok u64 else .error ("not valid uint64: " ++ txt)
    | .string _ _ t =>
      match parseUintGo t with
      | some v => .ok v
      | none => .error ("strconv.ParseUint: parsing " ++ quoteGo t ++ ": invalid syntax")
    | _ => .error ("not valid uint64: " ++ path)

/-- Config.GetFloat: a Number node answers when its float64 validity is
set; a String node is the textual fallback through strconv.ParseFloat;
anything else fails. -/
def getFloat (env : String → Option String) (fuel : Nat) (c : Node) (path : String) :
    Except String ℚ :=
  match getValue env fuel c path with
  | .error e => .error e
  | .ok root =>
    match root with
    | .number _ _ _ isFloat _ _ _ f64 _ _ txt =>
      if isFloat then .ok f64 else .error ("not valid float64: " ++ txt)
    | .string _ _ t =>
      match parseFloatGo t with
      | some v => .ok v
      | none => .error ("strconv.ParseFloat: parsing " ++ quoteGo t ++ ": invalid syntax")
    | _ => .error ("not valid float64: " ++ path)

/-- Config.GetComplex: a Number node answers when its complex validity
is set.  Unlike the other getters, the String branch of the source sits
inside the Number branch, behind a type assertion that always succeeds
when the kind test did, so a String node never reaches it and falls to
the outer else: the textual fallback of GetComplex is dead code (its
error assignment is also to a shadowed variable).  The model therefore
fails on every non-Number node with the path-naming error. -/
def getComplex (env : String → Option String) (fuel : Nat) (c : Node) (path : String) :
    Except String (ℚ × ℚ) :=
  match getValue env fuel c path with
  | .error e => .error e
  | .ok root =>
    match root with
    | .number _ _ _ _ isComplex _ _ _ re im txt =>
      if isComplex then .ok (re, im) else .error ("not valid complex: " ++ txt)
    | _ => .error ("not valid complex: " ++ path)

/-- Config.GetArray: a List node answers; each element runs through the
field-resolution loop (with the element-indexed error text) and one
cursor per element is returned. -/
def getArray (env : String → Option String) (fuel : Nat) (c : Node) (path : String) :
    Except String (List Node) :=
  match getValue env fuel c path with
  | .error e => .error e
  | .ok root =>
    match root with
    | .list _ elems => getArrayElems env fuel c path 0 elems
    | _ => .error ("not valid list node: " ++ path)
where
  getArrayElems (env : String → Option String) (fuel : Nat) (c : Node) (path : String) :
      Nat → List Node → Except String (List Node)
    | _, [] => .ok []
    | ind, n :: rest =>
      match resolveLoop env c fuel n (path ++ "[" ++ toString ind ++ "]") with
      | .error e => .error e
      | .ok v =>
        match getArrayElems env fuel c path (ind + 1) rest with
        | .error e => .error e
        | .ok vs => .ok (v :: vs)

/-! ## Specification-side definitions

Reference functions written from the words of the spec, compared with
the source-derived definitions in the theorems, plus small accessors
used to state properties. -/

/-- The empty environment: every lookup misses (the claims about unset
environment variables instantiate the injected lookup with this). -/
def envNone : String → Option String := fun _ => none

/-- The flag and value accessors of a Number node. -/
def Node.numIsInt : Node → Bool
  | .number _ i _ _ _ _ _ _ _ _ _ => i
  | _ => false

def Node.numIsUint : Node → Bool
  | .number _ _ u _ _ _ _ _ _ _ _ => u
  | _ => false

def Node.numIsFloat : Node → Bool
  | .number _ _ _ f _ _ _ _ _ _ _ => f
  | _ => false

def Node.numIsComplex : Node → Bool
  | .number _ _ _ _ c _ _ _ _ _ _ => c
  | _ => false

def Node.numInt64 : Node → Int
  | .number _ _ _ _ _ i64 _ _ _ _ _ => i64
  | _ => 0

def Node.numUint64 : Node → Nat
  | .number _ _ _ _ _ _ u64 _ _ _ _ => u64
  | _ => 0

def Node.numFloat64 : Node → ℚ
  | .number _ _ _ _ _ _ _ f64 _ _ _ => f64
  | _ => 0

/-- The number node the converter produces for the literal seven, used
as a concrete evaluation point. -/
def n7 : Node := (newNumber 0 "7" ItemType.number).getD (.nil 0)

/-- The merge the spec describes for one key: both sides merge
recursively (new over old), one side survives alone, absence stays
absent. -/
def mergeSpec (oldSide newSide : Option Node) : Option Node :=
  match oldSide, newSide with
  | some w, some v => some (Node.withFallback v w)
  | some w, none => some w
  | none, some v => some v
  | none, none => none

/-- The nesting the spec describes for a dotted key: one map per
segment, built innermost-first, every map at the given position. -/
def nestMaps (pos : Nat) : List String → Node → Node
  | [], v => v
  | k :: rest, v => .map pos [(k, nestMaps pos rest v)]

/-- The path walk the spec describes for GetValue, with the actual
non-Map behaviour of the source spelled out: a Map segment indexes (a
missing key is the path-not-valid failure), a non-Map node lets the
segment pass without effect. -/
def simpleWalk : List String → Node → Except String Node
  | [], v => .ok v
  | key :: rest, v =>
    match v with
    | .map _ ns =>
      match lookupEntry key ns with
      | none => .error ("path not valid: " ++ key)
      | some n => simpleWalk rest n
    | _ => simpleWalk rest v

mutual

/-- No Field node anywhere in the tree. -/
def fieldFree : Node → Bool
  | .map _ ns => fieldFreeEntries ns
  | .list _ es => fieldFreeElems es
  | .field _ _ _ _ => false
  | _ => true

def fieldFreeEntries : List (String × Node) → Bool
  | [] => true
  | (_, v) :: rest => fieldFree v && fieldFreeEntries rest

def fieldFreeElems : List Node → Bool
  | [] => true
  | v :: rest => fieldFree v && fieldFreeElems rest

end

/-! ## Association-list lemmas and the merge characterisation -/

theorem splitChars_ne_nil (sep : Char) (cs : List Char) : splitChars sep cs ≠ [] := by
  induction cs with
  | nil => simp [splitChars]
  | cons c cs ih =>
    by_cases h : c = sep
    · simp [splitChars, h]
    · simp only [splitChars, if_neg h]
      cases hs : splitChars sep cs with
      | nil => simp
      | cons g gs => simp

theorem splitString_ne_nil (sep : Char) (s : String) : splitString sep s ≠ [] := by
  have h := splitChars_ne_nil sep s.toList
  unfold splitString
  intro hmap
  exact h (List.map_eq_nil_iff.mp hmap)


theorem lookup_putEntry (ns : List (String × Node)) (k0 k : String) (v : Node) :
    lookupEntry k (putEntry k0 v ns) = if k0 = k then some v else lookupEntry k ns := by
  induction ns with
  | nil => simp [putEntry, lookupEntry]
  | cons kv rest ih =>
    obtain ⟨a, b⟩ := kv
    by_cases hk0 : a = k0
    · subst hk0
      simp only [putEntry, if_pos rfl, lookupEntry]
      by_cases hk : a = k
      · simp [hk]
      · simp [hk]
    · simp only [putEntry, if_neg hk0, lookupEntry]
      by_cases hk : a = k
      · subst hk
        have : k0 ≠ a := fun h => hk0 h.symm
        simp [this]
      · simp [hk, ih]

theorem lookup_append (l1 l2 : List (String × Node)) (k : String) :
    lookupEntry k (l1 ++ l2) =
      match lookupEntry k l1 with
      | some v => some v
      | none => lookupEntry k l2 := by
  induction l1 with
  | nil => simp [lookupEntry]
  | cons kv rest ih =>
    obtain ⟨a, b⟩ := kv
    by_cases hk : a = k
    · simp [lookupEntry, hk]
    · simp [lookupEntry, hk, ih]

theorem lookup_eq_none_of_not_mem (ns : List (String × Node)) (k : String)
    (h : k ∉ ns.map Prod.fst) : lookupEntry k ns = none := by
  induction ns with
  | nil => rfl
  | cons kv rest ih =>
    obtain ⟨a, b⟩ := kv
    simp only [List.map_cons, List.mem_cons] at h
    push_neg at h
    have ha : a ≠ k := fun hh => h.1 hh.symm
    simp [lookupEntry, ha, ih h.2]

/-- The merge loop of MapNode.withFallback, characterised one key at a
time: with the old map duplicate-free (a Go map iteration always is),
a key present on both sides holds the recursive merge of the new value
over the old, a key present on one side holds that side, and a key on
neither side stays absent. -/
theorem mergeOld_lookup (os : List (String × Node)) (ns : List (String × Node)) (k : String)
    (hnodup : (os.map Prod.fst).Nodup) :
    lookupEntry k (mergeOld ns os) = mergeSpec (lookupEntry k os) (lookupEntry k ns) := by
  induction os generalizing ns with
  | nil => cases h : lookupEntry k ns <;> simp [mergeOld, mergeSpec, lookupEntry, h]
  | cons kv rest ih =>
    obtain ⟨k0, v0⟩ := kv
    simp only [List.map_cons, List.nodup_cons] at hnodup
    obtain ⟨hk0notin, hrest⟩ := hnodup
    by_cases hk : k0 = k
    · subst hk
      have hrestk : lookupEntry k0 rest = none := lookup_eq_none_of_not_mem rest k0 hk0notin
      cases hns : lookupEntry k0 ns with
      | some w =>
        simp only [mergeOld, hns]
        rw [ih _ hrest, lookup_putEntry, if_pos rfl]
        simp [lookupEntry, mergeSpec, hrestk]
      | none =>
        simp only [mergeOld, hns]
        rw [ih _ hrest, lookup_append, hns]
        simp [lookupEntry, mergeSpec, hrestk]
    · cases hns0 : lookupEntry k0 ns with
      | some w =>
        simp only [mergeOld, hns0]
        rw [ih _ hrest, lookup_putEntry, if_neg hk]
        simp [lookupEntry, hk]
      | none =>
        simp only [mergeOld, hns0]
        rw [ih _ hrest, lookup_append]
        cases hns : lookupEntry k ns with
        | some w => simp [lookupEntry, hk, hns]
        | none => simp [lookupEntry, hk, hns]

/-! ## Copy, nesting and quote-scan lemmas -/

mutual

theorem copy_eq : (n : Node) → Node.copy n = n
  | .map _ ns => by rw [Node.copy, copyEntries_eq]
  | .list _ es => by rw [Node.copy, copyElems_eq]
  | .text _ _ => rfl
  | .nil _ => rfl
  | .field _ _ _ _ => rfl
  | .bool _ _ => rfl
  | .number _ _ _ _ _ _ _ _ _ _ _ => rfl
  | .string _ _ _ => rfl

theorem copyEntries_eq : (ns : List (String × Node)) → copyEntries ns = ns
  | [] => rfl
  | (_, v) :: rest => by rw [copyEntries, copy_eq v, copyEntries_eq rest]

theorem copyElems_eq : (es : List Node) → copyElems es = es
  | [] => rfl
  | v :: rest => by rw [copyElems, copy_eq v, copyElems_eq rest]

end

theorem createValueUnderPath_nest (remaining : String) (v : Node) :
    createValueUnderPath remaining v = nestMaps v.posOf (splitString '.' remaining) v := by
  unfold createValueUnderPath
  generalize splitString '.' remaining = ks
  induction ks with
  | nil => rfl
  | cons k rest ih => simp [nestMaps, List.foldr_cons, ih]

theorem scanQuoteBody_none_of_no_close (cs : List Char)
    (hq : '"' ∉ cs) (hb : '\\' ∉ cs) : scanQuoteBody cs = none := by
  induction cs with
  | nil => rfl
  | cons c rest ih =>
    simp only [List.mem_cons] at hq hb
    push_neg at hq hb
    have hcb : c ≠ '\\' := fun h => hb.1 h.symm
    have hcq : c ≠ '"' := fun h => hq.1 h.symm
    by_cases hn : c = '\n'
    · subst hn
      rw [scanQuoteBody.eq_def]
      simp [hcb, hcq]
    · rw [scanQuoteBody.eq_def]
      simp [hcb, hcq, hn, ih hq.2 hb.2]

theorem scanQuoteBody_none_of_newline (cs1 cs2 : List Char)
    (hq : '"' ∉ cs1) (hb : '\\' ∉ cs1) :
    scanQuoteBody (cs1 ++ '\n' :: cs2) = none := by
  induction cs1 with
  | nil =>
    rw [scanQuoteBody.eq_def]
    simp
  | cons c rest ih =>
    simp only [List.mem_cons] at hq hb
    push_neg at hq hb
    have hcb : c ≠ '\\' := fun h => hb.1 h.symm
    have hcq : c ≠ '"' := fun h => hq.1 h.symm
    by_cases hn : c = '\n'
    · subst hn
      rw [scanQuoteBody.eq_def]
      simp [hcb, hcq]
    · rw [scanQuoteBody.eq_def]
      simp [hcb, hcq, hn, ih hq.2 hb.2]

/-! ## Resolver lemmas -/

theorem ne_of_length_ne {s t : String} (h : s.length ≠ t.length) : s ≠ t :=
  fun e => h (by rw [e])

/-- A non-Field node leaves the resolution loop untouched at any fuel. -/
theorem resolveLoop_nonfield (env : String → Option String) (root : Node)
    (fuel : Nat) (n : Node) (k : String) (h : n.typeOf ≠ .field) :
    resolveLoop env root fuel n k = .ok n := by
  cases fuel <;> cases n <;> first
    | rfl
    | exact absurd rfl h

/-- Every value stored in a field-free map is field-free. -/
theorem fieldFree_lookup (ns : List (String × Node)) (k : String) (n : Node)
    (hff : fieldFreeEntries ns = true) (hl : lookupEntry k ns = some n) :
    fieldFree n = true := by
  induction ns with
  | nil => simp [lookupEntry] at hl
  | cons kv rest ih =>
    obtain ⟨a, b⟩ := kv
    rw [fieldFreeEntries, Bool.and_eq_true] at hff
    by_cases ha : a = k
    · simp only [lookupEntry, if_pos ha] at hl
      have hb : b = n := Option.some.inj hl
      exact hb ▸ hff.1
    · simp only [lookupEntry, if_neg ha] at hl
      exact ih hff.2 hl

/-- A field-free node is not a Field. -/
theorem fieldFree_not_field {n : Node} (h : fieldFree n = true) : n.typeOf ≠ .field := by
  intro hty
  cases n with
  | field p i hd fb => simp [fieldFree] at h
  | map p ns => simp [Node.typeOf] at hty
  | list p es => simp [Node.typeOf] at hty
  | text p t => simp [Node.typeOf] at hty
  | nil p => simp [Node.typeOf] at hty
  | bool p b => simp [Node.typeOf] at hty
  | number p a b c d e f g h2 i j => simp [Node.typeOf] at hty
  | string p q t => simp [Node.typeOf] at hty

/-- Neither the walk nor the resolution loop ever reports the
empty-path error: every error they can produce is a different string. -/
theorem walkPath_ne_empty_path (env : String → Option String) (root : Node) :
    ∀ fuel : Nat,
      (∀ (ps : List String) (v : Node), walkPath env root fuel ps v ≠ .error "empty path") ∧
      (∀ (n : Node) (k : String), resolveLoop env root fuel n k ≠ .error "empty path") := by
  intro fuel
  induction fuel with
  | zero =>
    constructor
    · intro ps v
      cases ps with
      | nil => simp [walkPath]
      | cons key rest => simp [walkPath]
    · intro n k
      cases n <;> simp [resolveLoop]
  | succ fuel ih =>
    have hpnv : ∀ key : String, ("path not valid: " ++ key) ≠ "empty path" := by
      intro key
      apply ne_of_length_ne
      rw [String.length_append]
      have h1 : ("path not valid: " : String).length = 16 := rfl
      have h2 : ("empty path" : String).length = 10 := rfl
      omega
    have hifn : ∀ k : String, ("invalid field node: " ++ k) ≠ "empty path" := by
      intro k
      apply ne_of_length_ne
      rw [String.length_append]
      have h1 : ("invalid field node: " : String).length = 20 := rfl
      have h2 : ("empty path" : String).length = 10 := rfl
      omega
    constructor
    · intro ps v
      cases ps with
      | nil => simp [walkPath]
      | cons key rest =>
        cases v with
        | map p ns =>
          cases hl : lookupEntry key ns with
          | none => simpa [walkPath, hl] using hpnv key
          | some n =>
            simp only [walkPath, hl]
            generalize hr : resolveLoop env root fuel n key = r
            cases r with
            | error e =>
              have hne : e ≠ "empty path" := by
                intro he
                exact ih.2 n key (by rw [hr, he])
              simpa using hne
            | ok n2 => simpa using ih.1 rest n2
        | list p es => simpa [walkPath] using ih.1 rest (.list p es)
        | text p t => simpa [walkPath] using ih.1 rest (.text p t)
        | nil p => simpa [walkPath] using ih.1 rest (.nil p)
        | field p i h fb => simpa [walkPath] using ih.1 rest (.field p i h fb)
        | bool p b => simpa [walkPath] using ih.1 rest (.bool p b)
        | number p a b c d e f g h i j => simpa [walkPath] using ih.1 rest (.number p a b c d e f g h i j)
        | string p q t => simpa [walkPath] using ih.1 rest (.string p q t)
    · intro n k
      cases n with
      | field p ident hard fb =>
        simp only [resolveLoop]
        cases hw : walkPath env root fuel (splitString '.' (dotted ident)) root with
        | ok r => exact ih.2 r k
        | error e =>
          cases he : env (dotted ident) with
          | some envV => simpa [he] using ih.2 (.string 0 envV (unquoteString envV)) k
          | none =>
            by_cases hh : hard
            · simpa [hh] using ih.2 (.nil 0) k
            · cases fb with
              | some f => simpa [hh] using ih.2 f k
              | none => simpa [hh] using hifn k
      | map p ns => simp [resolveLoop]
      | list p es => simp [resolveLoop]
      | text p t => simp [resolveLoop]
      | nil p => simp [resolveLoop]
      | bool p b => simp [resolveLoop]
      | number p a b c d e f g h i j => simp [resolveLoop]
      | string p q t => simp [resolveLoop]

/-- On a field-free cursor with enough fuel the walk of GetValue equals
the plain segment walk. -/
theorem walkPath_eq_simpleWalk (env : String → Option String) (root : Node) :
    ∀ (ps : List String) (fuel : Nat) (v : Node), fieldFree v = true → ps.length ≤ fuel →
      walkPath env root fuel ps v = simpleWalk ps v := by
  intro ps
  induction ps with
  | nil =>
    intro fuel v hff hlen
    cases fuel <;> rfl
  | cons key rest ih =>
    intro fuel v hff hlen
    cases fuel with
    | zero => simp at hlen
    | succ fuel =>
      have hlen2 : rest.length ≤ fuel := by
        simp at hlen
        omega
      cases v with
      | map p ns =>
        cases hl : lookupEntry key ns with
        | none => simp [walkPath, simpleWalk, hl]
        | some n =>
          have hffn : fieldFree n = true :=
            fieldFree_lookup ns key n (by simpa [fieldFree] using hff) hl
          simp only [walkPath, simpleWalk, hl,
            resolveLoop_nonfield env root fuel n key (fieldFree_not_field hffn)]
          exact ih fuel n hffn hlen2
      | list p es => simpa [walkPath, simpleWalk] using ih fuel (.list p es) hff hlen2
      | text p t => simpa [walkPath, simpleWalk] using ih fuel (.text p t) hff hlen2
      | nil p => simpa [walkPath, simpleWalk] using ih fuel (.nil p) hff hlen2
      | field p i h fb => simp [fieldFree] at hff
      | bool p b => simpa [walkPath, simpleWalk] using ih fuel (.bool p b) hff hlen2
      | number p a b c d e f g h i j =>
        simpa [walkPath, simpleWalk] using ih fuel (.number p a b c d e f g h i j) hff hlen2
      | string p q t => simpa [walkPath, simpleWalk] using ih fuel (.string p q t) hff hlen2

/-- GetValue always reaches the walk: the dot split is never empty. -/
theorem getValue_eq_walkPath (env : String → Option String) (fuel : Nat) (c : Node)
    (path : String) :
    getValue env fuel c path = walkPath env c fuel (splitString '.' path) c := by
  unfold getValue
  rw [if_neg]
  simp only [ne_eq, List.length_eq_zero]
  exact splitString_ne_nil '.' path

/-! ## Number-classifier lemmas -/

theorem string_mk_toList (s : String) : String.mk s.toList = s := rfl

/-- When the signed and the unsigned parses both succeed they agree:
the unsigned parse rejects any sign, so both read the same digits. -/
theorem parseInt_parseUint_agree (s : String) (i : Int) (u : Nat)
    (hi : parseIntGo s = some i) (hu : parseUintGo s = some u) : i = (u : Int) := by
  unfold parseIntGo at hi
  cases hcs : s.toList with
  | nil => rw [hcs] at hi; exact absurd hi (by simp)
  | cons c rest =>
    rw [hcs] at hi
    by_cases hplus : c = '+'
    · exfalso
      rw [parseUintGo, hcs] at hu
      subst hplus
      split at hu
      · exact absurd hu (by simp)
      · simp [parseUintDigits, digitVal] at hu
    · by_cases hminus : c = '-'
      · exfalso
        rw [parseUintGo, hcs] at hu
        subst hminus
        split at hu
        · exact absurd hu (by simp)
        · simp [parseUintDigits, digitVal] at hu
      · simp only [if_neg hplus, if_neg hminus] at hi
        have hmk : String.mk (c :: rest) = s := by rw [← hcs]; exact string_mk_toList s
        rw [hmk, hu] at hi
        by_cases hrange : 2 ^ 63 ≤ u
        · simp [hrange] at hi
          try omega
        · simp [hrange] at hi
          try omega

/-- simplifyComplex always leaves a valid representation and keeps the
float value equal to any extracted integer value. -/
theorem simplifyComplex_props (pos : Nat) (re im : ℚ) (txt : String) :
    ((simplifyComplex pos re im txt).numIsInt || (simplifyComplex pos re im txt).numIsUint ||
      (simplifyComplex pos re im txt).numIsFloat ||
      (simplifyComplex pos re im txt).numIsComplex) = true ∧
    ((simplifyComplex pos re im txt).numIsInt = true →
      (simplifyComplex pos re im txt).numIsFloat = true ∧
      (simplifyComplex pos re im txt).numFloat64 = ((simplifyComplex pos re im txt).numInt64 : ℚ)) ∧
    ((simplifyComplex pos re im txt).numIsUint = true →
      (simplifyComplex pos re im txt).numIsFloat = true ∧
      (simplifyComplex pos re im txt).numFloat64 = ((simplifyComplex pos re im txt).numUint64 : ℚ)) := by
  by_cases him : im = 0
  · simp only [simplifyComplex, if_pos him]
    refine ⟨by simp [Node.numIsFloat], ?_, ?_⟩
    · intro hint
      simp only [Node.numIsInt, decide_eq_true_eq] at hint
      constructor
      · simp [Node.numIsFloat]
      · simp only [Node.numFloat64, Node.numInt64, if_pos hint]
        exact hint.symm
    · intro huint
      simp only [Node.numIsUint, decide_eq_true_eq] at huint
      constructor
      · simp [Node.numIsFloat]
      · simp only [Node.numFloat64, Node.numUint64, if_pos huint]
        exact huint.symm
  · simp only [simplifyComplex, if_neg him]
    refine ⟨by simp [Node.numIsComplex], ?_, ?_⟩
    · intro hint
      simp [Node.numIsInt] at hint
    · intro huint
      simp [Node.numIsUint] at huint

/-! ## Claim theorems -/

/-- C1: when a key is redefined during parsing, two Map values merge
recursively with the new entry winning ties and the old fields
surviving where the new map is silent (stated as the per-key lookup of
the merge); a non-Map non-Field new value replaces the old outright; a
Field new value is kept with the old value recorded as its fallback;
and concretely a document defining a with x = 1 and again a with y = 2
resolves a.x to 1 and a.y to 2, while a = 1 followed by a = 2 resolves
a to 2. -/
theorem c1_duplicate_key_merge :
    (∀ (p q : Nat) (ns os : List (String × Node)) (k : String),
      (os.map Prod.fst).Nodup →
      Node.withFallback (.map p ns) (.map q os) = .map p (mergeOld ns os) ∧
      lookupEntry k (mergeOld ns os) = mergeSpec (lookupEntry k os) (lookupEntry k ns)) ∧
    (∀ m o : Node, m.typeOf ≠ .map → m.typeOf ≠ .field → m.withFallback o = m) ∧
    (∀ (pos : Nat) (ident : List String) (hard : Bool) (fb : Option Node) (o : Node),
      (Node.field pos ident hard fb).withFallback o = .field pos ident hard (some o)) ∧
    (parseDoc "a \x7b x = 1 \x7d\na \x7b y = 2 \x7d").map
        (fun root => (getInt envNone 40 root "a.x", getInt envNone 40 root "a.y"))
      = .ok (.ok 1, .ok 2) ∧
    (parseDoc "a = 1\na = 2").map (fun root => getInt envNone 40 root "a") = .ok (.ok 2) := by
  refine ⟨?_, ?_, ?_, rfl, rfl⟩
  · intro p q ns os k hnodup
    exact ⟨rfl, mergeOld_lookup os ns k hnodup⟩
  · intro m o hm hf
    cases m with
    | map p ns => exact absurd rfl hm
    | field p i h fb => exact absurd rfl hf
    | list p es => cases o <;> rfl
    | text p t => cases o <;> rfl
    | nil p => cases o <;> rfl
    | bool p b => cases o <;> rfl
    | number p a b c d e f g h i j => cases o <;> rfl
    | string p q t => cases o <;> rfl
  · intro pos ident hard fb o
    cases o <;> rfl

theorem c1_duplicate_key_merge_witness :
    (Node.withFallback (.map 0 [("x", .nil 2)]) (.map 1 [("y", .nil 3)])
        = .map 0 (mergeOld [("x", .nil 2)] [("y", .nil 3)]) ∧
      lookupEntry "y" (mergeOld [("x", .nil 2)] [("y", .nil 3)])
        = mergeSpec (lookupEntry "y" [("y", .nil 3)]) (lookupEntry "y" [("x", .nil 2)])) ∧
    Node.withFallback (.nil 5) (.bool 0 true) = .nil 5 ∧
    Node.withFallback (.field 4 ["p"] true none) (.bool 0 true)
      = .field 4 ["p"] true (some (.bool 0 true)) :=
  ⟨c1_duplicate_key_merge.1 0 1 [("x", .nil 2)] [("y", .nil 3)] "y" (by decide),
   c1_duplicate_key_merge.2.1 (.nil 5) (.bool 0 true) (by decide) (by decide),
   c1_duplicate_key_merge.2.2.1 4 ["p"] true none (.bool 0 true)⟩

/-- C2: redefining a key with a substitution captures the replaced
value as the fallback of the new Field node (shown on the parsed tree
of the port document), an unresolvable soft Field resolves to that
fallback (resolving port yields 9999 with the PORT variable unset), and
a soft Field with neither a resolvable target nor a fallback fails with
the invalid-field-node error. -/
theorem c2_soft_fallback :
    parseDoc "port = 9999\nport = $\x7b?PORT\x7d"
      = .ok (.map 0 [("port", .field 19 ["PORT"] false
          (some (.number 7 true true true false 9999 9999 9999 0 0 "9999")))]) ∧
    (parseDoc "port = 9999\nport = $\x7b?PORT\x7d").map
        (fun root => getInt envNone 40 root "port") = .ok (.ok 9999) ∧
    (parseDoc "port = $\x7b?PORT\x7d").map (fun root => getValue envNone 40 root "port")
      = .ok (.error "invalid field node: port") ∧
    (∀ (env : String → Option String) (root : Node) (fuel pos : Nat)
        (ident : List String) (key e : String),
      walkPath env root fuel (splitString '.' (dotted ident)) root = .error e →
      env (dotted ident) = none →
      resolveLoop env root (fuel + 1) (.field pos ident false none) key
        = .error ("invalid field node: " ++ key)) := by
  refine ⟨rfl, rfl, rfl, ?_⟩
  intro env root fuel pos ident key e hw he
  simp [resolveLoop, hw, he]

theorem c2_soft_fallback_witness :
    resolveLoop envNone (.nil 0) 1 (.field 0 ["Z"] false none) "k"
      = .error ("invalid field node: " ++ "k") :=
  c2_soft_fallback.2.2.2 envNone (.nil 0) 0 0 ["Z"] "k" "resolution fuel exhausted" rfl rfl

/-- C4: a hard substitution Field whose path resolves neither against
the tree nor against the environment lookup resolves to the Nil node
rather than an error, both in general and concretely: with PORT unset,
port = 9999 followed by a hard substitution of PORT resolves port to
Nil (the parsed tree also shows the hard flag and the captured
fallback, which hard resolution never consults). -/
theorem c4_hard_substitution_nil :
    parseDoc "port = 9999\nport = $\x7bPORT\x7d"
      = .ok (.map 0 [("port", .field 19 ["PORT"] true
          (some (.number 7 true true true false 9999 9999 9999 0 0 "9999")))]) ∧
    (parseDoc "port = 9999\nport = $\x7bPORT\x7d").map
        (fun root => getValue envNone 40 root "port") = .ok (.ok (.nil 0)) ∧
    (∀ (env : String → Option String) (root : Node) (fuel pos : Nat)
        (ident : List String) (fb : Option Node) (key e : String),
      walkPath env root fuel (splitString '.' (dotted ident)) root = .error e →
      env (dotted ident) = none →
      resolveLoop env root (fuel + 1) (.field pos ident true fb) key = .ok (.nil 0)) := by
  refine ⟨rfl, rfl, ?_⟩
  intro env root fuel pos ident fb key e hw he
  simp [resolveLoop, hw, he]

theorem c4_hard_substitution_nil_witness :
    resolveLoop envNone (.nil 0) 1 (.field 0 ["Z"] true none) "k" = .ok (.nil 0) :=
  c4_hard_substitution_nil.2.2 envNone (.nil 0) 0 0 ["Z"] none "k" "resolution fuel exhausted"
    rfl rfl

/-- C3 counterexample: the claim says indexing a non-Map node with a
remaining path segment fails with a path-not-valid error, but on the
document a = true the path a.b walks into the Bool node and returns it
successfully: the loop body of GetValue has no branch for a non-Map
current node, so the segment is silently skipped. -/
theorem c3_counterexample_nonmap_skipped :
    parseDoc "a = true" = .ok (.map 0 [("a", .bool 4 true)]) ∧
    (parseDoc "a = true").map (fun root => getValue envNone 40 root "a.b")
      = .ok (.ok (.bool 4 true)) ∧
    ∀ e : String,
      (Except.ok (Except.ok (Node.bool 4 true)) : Except String (Except String Node))
        ≠ .ok (.error e) := by
  refine ⟨rfl, rfl, ?_⟩
  intro e h
  simp at h

/-- C3 as amended: on a field-free cursor with enough fuel, GetValue
is exactly the plain segment walk, which fails with the path-not-valid
error precisely when a Map lacks the current segment key, silently
skips any segment whose current node is not a Map, and on success
returns the node reached by indexing each Map segment. -/
theorem c3_path_walk :
    (∀ (env : String → Option String) (fuel : Nat) (c : Node) (path : String),
      fieldFree c = true → (splitString '.' path).length ≤ fuel →
      getValue env fuel c path = simpleWalk (splitString '.' path) c) ∧
    (∀ (key : String) (rest : List String) (p : Nat) (ns : List (String × Node)),
      lookupEntry key ns = none →
      simpleWalk (key :: rest) (.map p ns) = .error ("path not valid: " ++ key)) ∧
    (∀ (key : String) (rest : List String) (v : Node), v.typeOf ≠ .map →
      simpleWalk (key :: rest) v = simpleWalk rest v) := by
  refine ⟨?_, ?_, ?_⟩
  · intro env fuel c path hff hlen
    rw [getValue_eq_walkPath]
    exact walkPath_eq_simpleWalk env c (splitString '.' path) fuel c hff hlen
  · intro key rest p ns h
    simp [simpleWalk, h]
  · intro key rest v hv
    cases v with
    | map p ns => exact absurd rfl hv
    | list p es => rfl
    | text p t => rfl
    | nil p => rfl
    | field p i h fb => rfl
    | bool p b => rfl
    | number p a b c d e f g h i j => rfl
    | string p q t => rfl

theorem c3_path_walk_witness :
    getValue envNone 1 (.bool 0 true) "a" = simpleWalk (splitString '.' "a") (.bool 0 true) ∧
    simpleWalk ["b"] (.map 0 [("a", .nil 1)]) = .error ("path not valid: " ++ "b") ∧
    simpleWalk ["b"] (.bool 0 true) = simpleWalk [] (.bool 0 true) :=
  ⟨c3_path_walk.1 envNone 1 (.bool 0 true) "a" rfl (by decide),
   c3_path_walk.2.1 "b" [] 0 [("a", .nil 1)] rfl,
   c3_path_walk.2.2 "b" [] (.bool 0 true) (by decide)⟩

/-- C7: a dotted-key entry desugars to the nested-map tree built
innermost-first, one map per segment (the general shape of
createValueUnderPath), and concretely the document with the dotted key
a.b.c = 1 renders to the same tree text as the explicitly nested
a = object b = object c = 1 and as the sugar form without the equals
sign. -/
theorem c7_dotted_key_equivalence :
    (∀ (remaining : String) (v : Node),
      createValueUnderPath remaining v = nestMaps v.posOf (splitString '.' remaining) v) ∧
    (parseDoc "a.b.c = 1").map Node.render = .ok "a = (b = (c = (1)))" ∧
    (parseDoc "a.b.c = 1").map Node.render
      = (parseDoc "a = \x7b b = \x7b c = 1 \x7d \x7d").map Node.render ∧
    (parseDoc "a.b.c = 1").map Node.render
      = (parseDoc "a \x7b b \x7b c = 1 \x7d \x7d").map Node.render :=
  ⟨createValueUnderPath_nest, rfl, rfl, rfl⟩

/-- C8: an unescaped newline or the end of the input inside a quoted
string is fatal: the quote scan rejects any remainder with no closing
quote (no escapes involved) and any remainder whose first newline comes
before any closing quote or escape; concretely the document x = "abc
fails the whole parse with the unterminated-quoted-string lexical error
and leaves no root. -/
theorem c8_unterminated_quoted_string :
    parseDoc "x = \"abc"
      = .error "template: config:1: unexpected unterminated quoted string in parse value" ∧
    rootAfterParse "x = \"abc" = none ∧
    (∀ cs : List Char, '"' ∉ cs → '\\' ∉ cs → scanQuoteBody cs = none) ∧
    (∀ cs1 cs2 : List Char, '"' ∉ cs1 → '\\' ∉ cs1 →
      scanQuoteBody (cs1 ++ '\n' :: cs2) = none) :=
  ⟨rfl, rfl, scanQuoteBody_none_of_no_close, scanQuoteBody_none_of_newline⟩

theorem c8_unterminated_quoted_string_witness :
    scanQuoteBody ['a', 'b'] = none ∧ scanQuoteBody (['a'] ++ '\n' :: ['b']) = none :=
  ⟨c8_unterminated_quoted_string.2.2.1 ['a', 'b'] (by decide) (by decide),
   c8_unterminated_quoted_string.2.2.2 ['a'] ['b'] (by decide) (by decide)⟩

/-- C9: deep copy is the structural identity on every node, so
rendering a copy and rendering the original produce identical text
(Tree.Copy renders identically because it copies the root through the
same operation). -/
theorem c9_copy_render (n : Node) :
    Node.copy n = n ∧ (Node.copy n).render = n.render :=
  ⟨copy_eq n, by rw [copy_eq n]⟩

/-- C10: splitting any path on dots yields at least one segment, so
the empty-path branch of GetValue is unreachable and GetValue never
reports the empty-path error; calling it with the empty path on a Map
root whose map has no empty-string key instead fails with the
path-not-valid error for the empty-string key. -/
theorem c10_no_empty_path_error :
    (∀ path : String, splitString '.' path ≠ []) ∧
    (∀ (env : String → Option String) (fuel : Nat) (c : Node) (path : String),
      getValue env fuel c path ≠ .error "empty path") ∧
    (∀ (env : String → Option String) (fuel p : Nat) (ns : List (String × Node)),
      lookupEntry "" ns = none →
      getValue env (fuel + 1) (.map p ns) "" = .error ("path not valid: " ++ "")) := by
  refine ⟨splitString_ne_nil '.', ?_, ?_⟩
  · intro env fuel c path
    rw [getValue_eq_walkPath]
    exact (walkPath_ne_empty_path env c fuel).1 (splitString '.' path) c
  · intro env fuel p ns h
    rw [getValue_eq_walkPath]
    have hsplit : splitString '.' "" = [""] := rfl
    rw [hsplit]
    simp [walkPath, h]

theorem c10_no_empty_path_error_witness :
    splitString '.' "" ≠ [] ∧
    getValue envNone 7 (.nil 0) "" ≠ .error "empty path" ∧
    getValue envNone 1 (.map 0 []) "" = .error ("path not valid: " ++ "") :=
  ⟨c10_no_empty_path_error.1 "", c10_no_empty_path_error.2.1 envNone 7 (.nil 0) "",
   c10_no_empty_path_error.2.2 envNone 0 0 [] rfl⟩

set_option maxRecDepth 100000 in
/-- C6 counterexample: the claim says every non-string typed getter,
GetComplex included, accepts a String node as a textual fallback, but
on the document binding x to the string 1+2i (a well-formed complex
literal, as the first conjunct shows) GetComplex fails with the
not-valid-complex error instead of returning the parsed pair: its
string branch is nested inside the Number branch behind a type
assertion that never fails, so it is unreachable. -/
theorem c6_counterexample_getcomplex_string :
    parseComplexGo "1+2i" = some (1, 2) ∧
    (parseDoc "x = \"1+2i\"").map (fun root => getValue envNone 40 root "x")
      = .ok (.ok (.string 4 "\"1+2i\"" "1+2i")) ∧
    (parseDoc "x = \"1+2i\"").map (fun root => getComplex envNone 40 root "x")
      = .ok (.error "not valid complex: x") :=
  ⟨by decide, rfl, rfl⟩

/-- C6 as amended: GetBool, GetInt, GetUInt and GetFloat accept a
String node at the resolved path as a textual fallback, returning the
value its text parses to under the standard textual grammar of the
type; GetComplex does not, failing on every String node with the
not-valid-complex error naming the path. -/
theorem c6_string_textual_fallback :
    ∀ (env : String → Option String) (fuel : Nat) (c : Node) (path : String)
      (p : Nat) (q t : String),
      getValue env fuel c path = .ok (.string p q t) →
      (∀ b, parseBoolGo t = some b → getBool env fuel c path = .ok b) ∧
      (∀ v, parseIntGo t = some v → getInt env fuel c path = .ok v) ∧
      (∀ v, parseUintGo t = some v → getUInt env fuel c path = .ok v) ∧
      (∀ v, parseFloatGo t = some v → getFloat env fuel c path = .ok v) ∧
      getComplex env fuel c path = .error ("not valid complex: " ++ path) := by
  intro env fuel c path p q t hgv
  refine ⟨?_, ?_, ?_, ?_, ?_⟩
  · intro b hb
    simp [getBool, hgv, hb]
  · intro v hv
    simp [getInt, hgv, hv]
  · intro v hv
    simp [getUInt, hgv, hv]
  · intro v hv
    simp [getFloat, hgv, hv]
  · simp [getComplex, hgv]

set_option maxRecDepth 100000 in
theorem c6_string_textual_fallback_witness :
    getBool envNone 1 (.map 0 [("x", .string 4 "1" "1")]) "x" = .ok true ∧
    getInt envNone 1 (.map 0 [("x", .string 4 "1" "1")]) "x" = .ok 1 ∧
    getUInt envNone 1 (.map 0 [("x", .string 4 "1" "1")]) "x" = .ok 1 ∧
    getFloat envNone 1 (.map 0 [("x", .string 4 "1" "1")]) "x" = .ok 1 ∧
    getComplex envNone 1 (.map 0 [("x", .string 4 "1" "1")]) "x"
      = .error ("not valid complex: " ++ "x") :=
  have h := c6_string_textual_fallback envNone 1 (.map 0 [("x", .string 4 "1" "1")]) "x"
    4 "1" "1" rfl
  ⟨h.1 true rfl, h.2.1 1 rfl, h.2.2.1 1 rfl, h.2.2.2.1 1 (by decide), h.2.2.2.2⟩

set_option maxRecDepth 100000 in
/-- C5 counterexample: the literal 2i is accepted by the scanner as
one number item and converted without error, yet none of the int64,
uint64 or float64 validity flags is set on the resulting node: only the
complex flag is, because a nonzero imaginary part suppresses the other
representations. -/
theorem c5_counterexample_imaginary :
    lexAll "2i" = [⟨.number, 0, "2i"⟩, ⟨.eof, 2, ""⟩] ∧
    (newNumber 0 "2i" ItemType.number).map
        (fun n => (n.numIsInt || n.numIsUint || n.numIsFloat, n.numIsComplex))
      = some (false, true) :=
  ⟨rfl, by decide⟩

/-- C5 as amended: every literal the converter accepts carries at
least one of the int64, uint64, float64 or complex128 validities, and
whenever the int64 or the uint64 validity is set the float64 validity
is set as well, with the stored float64 equal to the widening of that
integer value. -/
theorem c5_number_validity :
    ∀ (pos : Nat) (txt : String) (typ : ItemType) (n : Node),
      newNumber pos txt typ = some n →
      (n.numIsInt || n.numIsUint || n.numIsFloat || n.numIsComplex) = true ∧
      (n.numIsInt = true → n.numIsFloat = true ∧ n.numFloat64 = (n.numInt64 : ℚ)) ∧
      (n.numIsUint = true → n.numIsFloat = true ∧ n.numFloat64 = (n.numUint64 : ℚ)) := by
  intro pos txt typ n h
  unfold newNumber at h
  by_cases htyp : typ = .complex
  · rw [if_pos htyp] at h
    cases hc : parseComplexGo txt with
    | none => rw [hc] at h; exact absurd h (by simp)
    | some p =>
      rw [hc] at h
      have hn : n = simplifyComplex pos p.1 p.2 txt := (Option.some.inj h).symm
      rw [hn]
      exact simplifyComplex_props pos p.1 p.2 txt
  · rw [if_neg htyp] at h
    cases him : newNumber.imagParse txt with
    | some f =>
      rw [him] at h
      have hn : n = simplifyComplex pos 0 f txt := (Option.some.inj h).symm
      rw [hn]
      exact simplifyComplex_props pos 0 f txt
    | none =>
      rw [him] at h
      cases hi : parseIntGo txt with
      | some i =>
        cases hu : parseUintGo txt with
        | some u =>
          simp only [hi, hu, Option.isSome, Option.getD] at h
          have hn := (Option.some.inj h).symm
          subst hn
          have hiu : i = (u : Int) := parseInt_parseUint_agree txt i u hi hu
          refine ⟨rfl, fun _ => ⟨rfl, rfl⟩, fun _ => ⟨rfl, ?_⟩⟩
          simp only [Node.numFloat64, Node.numUint64, Node.numInt64, hiu]
          push_cast
          rfl
        | none =>
          simp only [hi, hu, Option.isSome, Option.getD] at h
          have hn := (Option.some.inj h).symm
          subst hn
          refine ⟨rfl, fun _ => ⟨rfl, rfl⟩, fun hui => ⟨rfl, ?_⟩⟩
          simp only [Node.numIsUint, decide_eq_true_eq] at hui
          rcases hui with hui | hui
          · simp at hui
          · simp only [Node.numFloat64, Node.numUint64, Node.numInt64, hui.2]
            rfl
      | none =>
        cases hu : parseUintGo txt with
        | some u =>
          simp only [hi, hu, Option.isSome, Option.getD] at h
          have hn := (Option.some.inj h).symm
          subst hn
          refine ⟨rfl, fun hii => ?_, fun _ => ⟨rfl, rfl⟩⟩
          simp [Node.numIsInt] at hii
        | none =>
          simp only [hi, hu, Option.isSome, Option.getD] at h
          cases hf : parseFloatGo txt with
          | none => rw [hf] at h; exact absurd h (by simp)
          | some f =>
            rw [hf] at h
            have hn := (Option.some.inj h).symm
            subst hn
            refine ⟨by simp [Node.numIsFloat], fun hii => ⟨rfl, ?_⟩, fun hui => ⟨rfl, ?_⟩⟩
            · simp only [Node.numIsInt, decide_eq_true_eq] at hii
              simp only [Node.numFloat64, Node.numInt64, if_pos hii]
              exact hii.symm
            · simp only [Node.numIsUint, decide_eq_true_eq] at hui
              simp only [Node.numFloat64, Node.numUint64, if_pos hui]
              exact hui.symm

set_option maxRecDepth 100000 in
theorem c5_number_validity_witness :
    newNumber 0 "7" ItemType.number = some n7 ∧
    (n7.numIsInt || n7.numIsUint || n7.numIsFloat || n7.numIsComplex) = true ∧
    (n7.numIsFloat = true ∧ n7.numFloat64 = (n7.numInt64 : ℚ)) ∧
    (n7.numIsFloat = true ∧ n7.numFloat64 = (n7.numUint64 : ℚ)) :=
  have h := c5_number_validity 0 "7" ItemType.number n7 rfl
  ⟨rfl, h.1, h.2.1 (by decide), h.2.2 (by decide)⟩

end TSConf
